import Mathlib

/-!
Verification of the COA_translation pipeline (PDF text extraction, chunking,
plain and structured translation, OCR image preprocessing).

Text is modelled as `List Char`; Python library behaviour at module
boundaries (the OpenAI completion call, `json.loads`, the PDF backends) is
modelled as oracle parameters, while all repository code is embedded
faithfully from `src/modules`.
-/

set_option maxHeartbeats 1000000

namespace COATrans

/-! ## Python string primitives -/

/-- Characters stripped by Python `str.strip()` for ASCII input
(space, tab, newline, carriage return, vertical tab, form feed).
Unicode whitespace is outside the modelled character range. -/
def isPySpace (c : Char) : Bool :=
  c = ' ' || c = '\t' || c = '\n' || c = '\r' || c = '\x0b' || c = '\x0c'

/-- Python `str.lstrip()`. -/
def pyLStrip (s : List Char) : List Char := s.dropWhile isPySpace

/-- Python `str.rstrip()`. -/
def pyRStrip (s : List Char) : List Char := (s.reverse.dropWhile isPySpace).reverse

/-- Python `str.strip()`. -/
def pyStrip (s : List Char) : List Char := pyLStrip (pyRStrip s)

/-- The non-whitespace content of a string, used to compare texts up to
whitespace normalisation. -/
def nws (s : List Char) : List Char := s.filter (fun c => !isPySpace c)

theorem dropWhile_sub (p : Char → Bool) (s : List Char) : List.Sublist (s.dropWhile p) s := by
  induction s with
  | nil => simp [List.dropWhile]
  | cons c rest ih =>
    by_cases h : p c
    · simp [List.dropWhile, h]
      exact ih.cons c
    · simp [List.dropWhile, h]

theorem pyRStrip_sub (s : List Char) : List.Sublist (pyRStrip s) s := by
  have h := dropWhile_sub isPySpace s.reverse
  have h2 := h.reverse
  simpa [pyRStrip] using h2

theorem pyStrip_sub (s : List Char) : List.Sublist (pyStrip s) s :=
  (dropWhile_sub isPySpace (pyRStrip s)).trans (pyRStrip_sub s)

theorem pyStrip_length_le (s : List Char) : (pyStrip s).length ≤ s.length :=
  (pyStrip_sub s).length_le

theorem pyStrip_not_mem {s : List Char} {c : Char} (h : c ∉ s) : c ∉ pyStrip s :=
  fun hmem => h ((pyStrip_sub s).subset hmem)

theorem nws_dropWhile (s : List Char) : nws (s.dropWhile isPySpace) = nws s := by
  induction s with
  | nil => rfl
  | cons c rest ih =>
    by_cases h : isPySpace c
    · simp [List.dropWhile, h, nws, List.filter]
      simpa [nws] using ih
    · simp [List.dropWhile, h]

theorem nws_reverse (s : List Char) : nws s.reverse = (nws s).reverse := by
  simp [nws, List.filter_reverse]

theorem nws_pyRStrip (s : List Char) : nws (pyRStrip s) = nws s := by
  have h := nws_dropWhile s.reverse
  have h2 : nws (pyRStrip s) = (nws (s.reverse.dropWhile isPySpace)).reverse := by
    simp [pyRStrip, nws_reverse]
  rw [h2, h, nws_reverse, List.reverse_reverse]

theorem nws_pyStrip (s : List Char) : nws (pyStrip s) = nws s := by
  rw [pyStrip, pyLStrip, nws_dropWhile, nws_pyRStrip]

theorem nws_append (s t : List Char) : nws (s ++ t) = nws s ++ nws t := by
  simp [nws]

theorem nws_space_single {c : Char} (h : isPySpace c) : nws [c] = [] := by
  simp [nws, h]

theorem pyRStrip_append_space {c : Char} (h : isPySpace c) (s : List Char) :
    pyRStrip (s ++ [c]) = pyRStrip s := by
  simp [pyRStrip, List.dropWhile, h]

theorem pyStrip_append_space {c : Char} (h : isPySpace c) (s : List Char) :
    pyStrip (s ++ [c]) = pyStrip s := by
  simp [pyStrip, pyRStrip_append_space h]

/-! ## Python string splitting and joining -/

/-- Helper for Python `str.split(sep)` with a one-character separator:
returns the first piece and the remaining pieces. -/
def splitCharAux (sep : Char) : List Char → List Char × List (List Char)
  | [] => ([], [])
  | c :: rest =>
    let r := splitCharAux sep rest
    if c = sep then ([], r.1 :: r.2) else (c :: r.1, r.2)

/-- Python `str.split(sep)` for a one-character separator, e.g.
`para.split("\n")` in `_chunk_text`. -/
def splitChar (sep : Char) (s : List Char) : List (List Char) :=
  (splitCharAux sep s).1 :: (splitCharAux sep s).2

/-- Helper for Python `text.split("\n\n")`: returns the first piece and the
remaining pieces, matching the leftmost non-overlapping occurrences of the
two-newline separator. -/
def splitParasAux : List Char → List Char × List (List Char)
  | [] => ([], [])
  | [c] => ([c], [])
  | c :: d :: rest =>
    if c = '\n' ∧ d = '\n' then
      let r := splitParasAux rest
      ([], r.1 :: r.2)
    else
      let r := splitParasAux (d :: rest)
      (c :: r.1, r.2)

/-- Python `text.split("\n\n")` as used by `_chunk_text`. -/
def splitParas (s : List Char) : List (List Char) :=
  (splitParasAux s).1 :: (splitParasAux s).2

/-- Python `sep.join(pieces)` for list-of-characters strings. -/
def joinSep (sep : List Char) : List (List Char) → List Char
  | [] => []
  | [p] => p
  | p :: ps => p ++ sep ++ joinSep sep ps

theorem joinSep_cons_cons (sep p q : List Char) (ps : List (List Char)) :
    joinSep sep (p :: q :: ps) = p ++ sep ++ joinSep sep (q :: ps) := rfl

theorem joinSep_cons_head (sep : List Char) (c : Char) (p : List Char)
    (ps : List (List Char)) :
    joinSep sep ((c :: p) :: ps) = c :: joinSep sep (p :: ps) := by
  cases ps with
  | nil => rfl
  | cons q qs => simp [joinSep_cons_cons]

theorem splitChar_cons_self (sep : Char) (rest : List Char) :
    splitChar sep (sep :: rest)
      = [] :: (splitCharAux sep rest).1 :: (splitCharAux sep rest).2 := by
  simp [splitChar, splitCharAux]

theorem splitChar_cons_other {sep c : Char} (h : ¬ c = sep) (rest : List Char) :
    splitChar sep (c :: rest)
      = (c :: (splitCharAux sep rest).1) :: (splitCharAux sep rest).2 := by
  simp [splitChar, splitCharAux, h]

theorem splitChar_joinSep (sep : Char) (s : List Char) :
    joinSep [sep] (splitChar sep s) = s := by
  induction s with
  | nil => rfl
  | cons c rest ih =>
    by_cases h : c = sep
    · subst h
      rw [splitChar_cons_self, joinSep_cons_cons]
      simpa [splitChar] using ih
    · rw [splitChar_cons_other h, joinSep_cons_head]
      simpa [splitChar] using ih

theorem splitChar_not_mem (sep : Char) (s : List Char) :
    ∀ l ∈ splitChar sep s, sep ∉ l := by
  induction s with
  | nil =>
    intro l hl
    simp [splitChar, splitCharAux] at hl
    simp [hl]
  | cons c rest ih =>
    intro l hl
    by_cases h : c = sep
    · subst h
      rw [splitChar_cons_self] at hl
      rcases List.mem_cons.1 hl with h1 | h1
      · simp [h1]
      · exact ih l (by simpa [splitChar] using h1)
    · rw [splitChar_cons_other h] at hl
      rcases List.mem_cons.1 hl with h1 | h1
      · subst h1
        intro hmem
        rcases List.mem_cons.1 hmem with h2 | h2
        · exact h h2.symm
        · exact ih _ (by simp [splitChar]) h2
      · exact ih l (by simp [splitChar, h1])

theorem splitParas_cons_nl (rest : List Char) :
    splitParas ('\n' :: '\n' :: rest)
      = [] :: (splitParasAux rest).1 :: (splitParasAux rest).2 := by
  simp [splitParas, splitParasAux]

theorem splitParas_cons_other {c d : Char} (h : ¬(c = '\n' ∧ d = '\n'))
    (rest : List Char) :
    splitParas (c :: d :: rest)
      = (c :: (splitParasAux (d :: rest)).1) :: (splitParasAux (d :: rest)).2 := by
  simp only [splitParas, splitParasAux, if_neg h]

theorem splitParas_joinSep (s : List Char) :
    joinSep ['\n', '\n'] (splitParas s) = s := by
  induction s using splitParasAux.induct with
  | case1 => rfl
  | case2 c => rfl
  | case3 c d rest h ih =>
    obtain ⟨hc, hd⟩ := h
    subst hc; subst hd
    rw [splitParas_cons_nl, joinSep_cons_cons]
    simpa [splitParas] using ih
  | case4 c d rest h ih =>
    rw [splitParas_cons_other h, joinSep_cons_head]
    simpa [splitParas] using ih

theorem nws_joinSep (sep : List Char) (hsep : nws sep = [])
    (ps : List (List Char)) :
    nws (joinSep sep ps) = (ps.map nws).flatten := by
  induction ps with
  | nil => rfl
  | cons p qs ih =>
    cases qs with
    | nil => simp [joinSep, nws]
    | cons q rs =>
      rw [joinSep_cons_cons, nws_append, nws_append, hsep]
      simp only [List.map_cons, List.flatten_cons] at ih ⊢
      rw [ih]
      simp

theorem nws_flatten (ps : List (List Char)) :
    nws ps.flatten = (ps.map nws).flatten := by
  induction ps with
  | nil => rfl
  | cons p qs ih => simp [nws_append, ih]

theorem nws_two_nl : nws ['\n', '\n'] = [] := by decide

theorem nws_one_nl : nws ['\n'] = [] := by decide

/-! ## The chunker (translator._chunk_text) -/

/-- MAX_CHUNK_SIZE from translator.py: maximum characters per translation
chunk. -/
def MAX_CHUNK_SIZE : Nat := 6000

/-- The loop state of `_chunk_text`: the chunks emitted so far and the
running `current_chunk`. -/
structure ChunkState where
  chunks : List (List Char)
  current : List Char

/-- Body of the inner `for line in lines` loop of `_chunk_text`, run when a
single paragraph alone exceeds `max_size`. -/
def lineStep (max_size : Nat) (st : ChunkState) (line : List Char) : ChunkState :=
  if st.current.length + line.length + 1 > max_size then
    { chunks := if st.current ≠ [] then st.chunks ++ [pyStrip st.current] else st.chunks
      current := line ++ ['\n'] }
  else
    { chunks := st.chunks
      current := st.current ++ line ++ ['\n'] }

/-- Body of the outer `for para in paragraphs` loop of `_chunk_text`. -/
def paraStep (max_size : Nat) (st : ChunkState) (para : List Char) : ChunkState :=
  if st.current.length + para.length + 2 > max_size then
    let flushed : ChunkState :=
      if st.current ≠ [] then
        { chunks := st.chunks ++ [pyStrip st.current], current := [] }
      else st
    if para.length > max_size then
      (splitChar '\n' para).foldl (lineStep max_size) flushed
    else
      { chunks := flushed.chunks, current := para ++ ['\n', '\n'] }
  else
    { chunks := st.chunks
      current := st.current ++ para ++ ['\n', '\n'] }

/-- Lean embedding of `translator._chunk_text(text, max_size)`. -/
def chunk_text (text : List Char) (max_size : Nat) : List (List Char) :=
  if text.length ≤ max_size then [text]
  else
    let st := (splitParas text).foldl (paraStep max_size) ⟨[], []⟩
    if pyStrip st.current ≠ [] then st.chunks ++ [pyStrip st.current]
    else st.chunks

/-- A good chunk: within the size budget, or an undivided single line. -/
def GoodChunk (max_size : Nat) (c : List Char) : Prop :=
  c.length ≤ max_size ∨ '\n' ∉ c

/-- Loop invariant for the chunker: all emitted chunks are good, and the
stripped running chunk would be good if flushed now. -/
def GoodState (max_size : Nat) (st : ChunkState) : Prop :=
  (∀ c ∈ st.chunks, GoodChunk max_size c) ∧ GoodChunk max_size (pyStrip st.current)

theorem goodChunk_of_le {max_size : Nat} {c : List Char}
    (h : c.length ≤ max_size) : GoodChunk max_size c := Or.inl h

theorem goodChunk_strip_of_le {max_size : Nat} {c : List Char}
    (h : c.length ≤ max_size) : GoodChunk max_size (pyStrip c) :=
  Or.inl ((pyStrip_length_le c).trans h)

theorem lineStep_good {max_size : Nat} {st : ChunkState} {line : List Char}
    (hst : GoodState max_size st) (hline : '\n' ∉ line) :
    GoodState max_size (lineStep max_size st line) := by
  obtain ⟨hchunks, hcur⟩ := hst
  unfold lineStep
  by_cases hov : st.current.length + line.length + 1 > max_size
  · rw [if_pos hov]
    constructor
    · intro c hc
      by_cases hne : st.current ≠ []
      · rw [if_pos hne] at hc
        rcases List.mem_append.1 hc with h1 | h1
        · exact hchunks c h1
        · rw [List.mem_singleton.1 h1]; exact hcur
      · rw [if_neg hne] at hc
        exact hchunks c hc
    · rw [pyStrip_append_space (by decide) line]
      exact Or.inr (pyStrip_not_mem hline)
  · rw [if_neg hov]
    refine ⟨hchunks, goodChunk_strip_of_le ?_⟩
    push_neg at hov
    simp only [List.length_append, List.length_cons, List.length_nil]
    omega

theorem lineStep_foldl_good {max_size : Nat} {lines : List (List Char)}
    (hlines : ∀ l ∈ lines, '\n' ∉ l) :
    ∀ st : ChunkState, GoodState max_size st →
      GoodState max_size (lines.foldl (lineStep max_size) st) := by
  induction lines with
  | nil => intro st h; exact h
  | cons l ls ih =>
    intro st h
    exact ih (fun x hx => hlines x (List.mem_cons_of_mem l hx))
      _ (lineStep_good h (hlines l (List.mem_cons_self l ls)))

theorem paraStep_good {max_size : Nat} {st : ChunkState} {para : List Char}
    (hst : GoodState max_size st) :
    GoodState max_size (paraStep max_size st para) := by
  obtain ⟨hchunks, hcur⟩ := hst
  unfold paraStep
  by_cases hov : st.current.length + para.length + 2 > max_size
  · rw [if_pos hov]
    have hflushed : GoodState max_size
        (if st.current ≠ [] then
          ChunkState.mk (st.chunks ++ [pyStrip st.current]) []
        else st) := by
      by_cases hne : st.current ≠ []
      · rw [if_pos hne]
        refine ⟨?_, ?_⟩
        · intro c hc
          rcases List.mem_append.1 hc with h1 | h1
          · exact hchunks c h1
          · rw [List.mem_singleton.1 h1]; exact hcur
        · exact goodChunk_strip_of_le (by simp)
      · rw [if_neg hne]
        exact ⟨hchunks, hcur⟩
    by_cases hbig : para.length > max_size
    · rw [if_pos hbig]
      exact lineStep_foldl_good (splitChar_not_mem '\n' para) _ hflushed
    · rw [if_neg hbig]
      refine ⟨hflushed.1, ?_⟩
      rw [show para ++ ['\n', '\n'] = (para ++ ['\n']) ++ ['\n'] by simp,
        pyStrip_append_space (by decide), pyStrip_append_space (by decide)]
      exact goodChunk_strip_of_le (by omega)
  · rw [if_neg hov]
    refine ⟨hchunks, goodChunk_strip_of_le ?_⟩
    push_neg at hov
    simp only [List.length_append, List.length_cons, List.length_nil]
    omega

theorem paraStep_foldl_good {max_size : Nat} (paras : List (List Char)) :
    ∀ st : ChunkState, GoodState max_size st →
      GoodState max_size (paras.foldl (paraStep max_size) st) := by
  induction paras with
  | nil => intro st h; exact h
  | cons p ps ih => intro st h; exact ih _ (paraStep_good h)

/-- The non-whitespace content carried by a chunker state. -/
def stateContent (st : ChunkState) : List Char :=
  nws st.chunks.flatten ++ nws st.current

theorem nws_nil : nws [] = [] := rfl

theorem nws_flatten_append_single (L : List (List Char)) (x : List Char) :
    nws (L ++ [x]).flatten = nws L.flatten ++ nws x := by
  rw [List.flatten_append, nws_append]
  simp [nws_append]

theorem nws_append_nl (l : List Char) : nws (l ++ ['\n']) = nws l := by
  rw [nws_append, nws_one_nl, List.append_nil]

theorem nws_append_two_nl (l : List Char) : nws (l ++ ['\n', '\n']) = nws l := by
  rw [nws_append, nws_two_nl, List.append_nil]

theorem stateContent_flush (st : ChunkState) :
    stateContent (if st.current ≠ [] then
      ChunkState.mk (st.chunks ++ [pyStrip st.current]) []
    else st) = stateContent st := by
  by_cases hne : st.current ≠ []
  · rw [if_pos hne]
    show nws ((st.chunks ++ [pyStrip st.current]).flatten) ++ nws []
        = stateContent st
    rw [nws_flatten_append_single, nws_pyStrip, nws_nil, List.append_nil,
      stateContent]
  · rw [if_neg hne]

theorem lineStep_content (max_size : Nat) (st : ChunkState) (line : List Char) :
    stateContent (lineStep max_size st line) = stateContent st ++ nws line := by
  unfold lineStep
  by_cases hov : st.current.length + line.length + 1 > max_size
  · rw [if_pos hov]
    by_cases hne : st.current ≠ []
    · rw [if_pos hne]
      show nws ((st.chunks ++ [pyStrip st.current]).flatten) ++ nws (line ++ ['\n'])
          = stateContent st ++ nws line
      rw [nws_flatten_append_single, nws_pyStrip, nws_append_nl, stateContent,
        List.append_assoc]
    · rw [if_neg hne]
      push_neg at hne
      show nws st.chunks.flatten ++ nws (line ++ ['\n'])
          = stateContent st ++ nws line
      rw [nws_append_nl, stateContent, hne, nws_nil, List.append_nil]
  · rw [if_neg hov]
    show nws st.chunks.flatten ++ nws (st.current ++ line ++ ['\n'])
        = stateContent st ++ nws line
    rw [nws_append_nl, nws_append, stateContent, List.append_assoc]

theorem lineStep_foldl_content (max_size : Nat) (lines : List (List Char)) :
    ∀ st : ChunkState,
      stateContent (lines.foldl (lineStep max_size) st)
        = stateContent st ++ (lines.map nws).flatten := by
  induction lines with
  | nil => intro st; simp
  | cons l ls ih =>
    intro st
    rw [List.foldl_cons, ih, lineStep_content]
    simp

theorem paraStep_content (max_size : Nat) (st : ChunkState) (para : List Char) :
    stateContent (paraStep max_size st para) = stateContent st ++ nws para := by
  unfold paraStep
  by_cases hov : st.current.length + para.length + 2 > max_size
  · rw [if_pos hov]
    by_cases hbig : para.length > max_size
    · rw [if_pos hbig, lineStep_foldl_content, stateContent_flush]
      congr 1
      rw [← nws_joinSep ['\n'] nws_one_nl, splitChar_joinSep]
    · rw [if_neg hbig]
      by_cases hne : st.current ≠ []
      · rw [if_pos hne]
        show nws ((st.chunks ++ [pyStrip st.current]).flatten)
              ++ nws (para ++ ['\n', '\n'])
            = stateContent st ++ nws para
        rw [nws_flatten_append_single, nws_pyStrip, nws_append_two_nl,
          stateContent, List.append_assoc]
      · rw [if_neg hne]
        push_neg at hne
        show nws st.chunks.flatten ++ nws (para ++ ['\n', '\n'])
            = stateContent st ++ nws para
        rw [nws_append_two_nl, stateContent, hne, nws_nil, List.append_nil]
  · rw [if_neg hov]
    show nws st.chunks.flatten ++ nws (st.current ++ para ++ ['\n', '\n'])
        = stateContent st ++ nws para
    rw [nws_append_two_nl, nws_append, stateContent, List.append_assoc]

theorem paraStep_foldl_content (max_size : Nat) (paras : List (List Char)) :
    ∀ st : ChunkState,
      stateContent (paras.foldl (paraStep max_size) st)
        = stateContent st ++ (paras.map nws).flatten := by
  induction paras with
  | nil => intro st; simp
  | cons p ps ih =>
    intro st
    rw [List.foldl_cons, ih, paraStep_content]
    simp

/-- C5: every chunk emitted by `_chunk_text` has length at most `max_size`,
except a chunk that is a single undivided line (containing no newline),
which is emitted whole and never split mid-line. -/
theorem chunk_text_size_bound (text : List Char) (max_size : Nat)
    (c : List Char) (hc : c ∈ chunk_text text max_size) :
    c.length ≤ max_size ∨ '\n' ∉ c := by
  unfold chunk_text at hc
  by_cases hfast : text.length ≤ max_size
  · rw [if_pos hfast] at hc
    rw [List.mem_singleton.1 hc]
    exact Or.inl hfast
  · rw [if_neg hfast] at hc
    have hinit : GoodState max_size (ChunkState.mk [] []) := by
      refine ⟨?_, goodChunk_strip_of_le ?_⟩ <;> simp
    have hg := paraStep_foldl_good (splitParas text) _ hinit
    set st := (splitParas text).foldl (paraStep max_size) (ChunkState.mk [] [])
      with hst
    by_cases hne : pyStrip st.current ≠ []
    · rw [if_pos hne] at hc
      rcases List.mem_append.1 hc with h1 | h1
      · exact hg.1 c h1
      · rw [List.mem_singleton.1 h1]; exact hg.2
    · rw [if_neg hne] at hc
      exact hg.1 c hc

/-- Witness for C5 at a concrete input: chunking "ab\n\ncd" with budget 3
yields the chunk "ab", which satisfies the size bound. -/
theorem chunk_text_size_bound_spot :
    ['a', 'b'] ∈ chunk_text ['a', 'b', '\n', '\n', 'c', 'd'] 3
      ∧ (['a', 'b'].length ≤ 3 ∨ '\n' ∉ ['a', 'b']) :=
  ⟨by decide, chunk_text_size_bound ['a', 'b', '\n', '\n', 'c', 'd'] 3
    ['a', 'b'] (by decide)⟩

/-- C6, part 1: concatenating the chunks of `_chunk_text` reproduces the
source text up to boundary-whitespace normalisation: the non-whitespace
character sequence is preserved exactly and in order. -/
theorem chunk_text_content (text : List Char) (max_size : Nat) :
    nws (chunk_text text max_size).flatten = nws text := by
  unfold chunk_text
  by_cases hfast : text.length ≤ max_size
  · rw [if_pos hfast]
    simp
  · rw [if_neg hfast]
    have hcontent := paraStep_foldl_content max_size (splitParas text)
      (ChunkState.mk [] [])
    set st := (splitParas text).foldl (paraStep max_size) (ChunkState.mk [] [])
      with hst
    have hfull : stateContent st = nws text := by
      rw [hcontent]
      show ([] : List Char) ++ ((splitParas text).map nws).flatten = nws text
      rw [List.nil_append, ← nws_joinSep ['\n', '\n'] nws_two_nl,
        splitParas_joinSep]
    by_cases hne : pyStrip st.current ≠ []
    · rw [if_pos hne]
      show nws ((st.chunks ++ [pyStrip st.current]).flatten) = nws text
      rw [nws_flatten_append_single, nws_pyStrip]
      exact hfull
    · rw [if_neg hne]
      push_neg at hne
      have hcur : nws st.current = [] := by
        rw [← nws_pyStrip, hne, nws_nil]
      show nws st.chunks.flatten = nws text
      rw [← hfull, stateContent, hcur, List.append_nil]

/-- C6: chunk concatenation reproduces the paragraph content of the source
text up to boundary-whitespace normalisation, and re-chunking the
blank-line-joined concatenation of a prior chunking yields a partition with
the same normalised content. -/
theorem chunk_text_content_and_rechunk (text : List Char) (max_size : Nat) :
    nws (chunk_text text max_size).flatten = nws text
      ∧ nws (chunk_text
          (joinSep ['\n', '\n'] (chunk_text text max_size)) max_size).flatten
        = nws text := by
  refine ⟨chunk_text_content text max_size, ?_⟩
  rw [chunk_text_content, nws_joinSep ['\n', '\n'] nws_two_nl,
    ← nws_flatten, chunk_text_content]

/-! ## PDF extraction coordinator (pdf_extractor.extract_text_from_pdf) -/

/-- The `(text, page_count)` pair produced by one extraction backend after
the backend has caught its own exceptions: `text` is `none` on failure. -/
structure BackendOut where
  text : Option (List Char)
  page_count : Nat

/-- A backend body may raise inside the underlying PDF/OCR library; each
backend wraps its body in a try/except returning `(None, 0)` on any
exception, so nothing propagates to the coordinator. -/
def runBackend (raw : Except String (Option (List Char) × Nat)) : BackendOut :=
  match raw with
  | .error _ => ⟨none, 0⟩
  | .ok (t, pc) => ⟨t, pc⟩

/-- The result dict of `extract_text_from_pdf`. -/
structure ExtractionResult where
  text : List Char
  method : String
  success : Bool
  page_count : Nat
deriving DecidableEq

/-- The coordinator acceptance test `if text and len(text.strip()) > gate`
applied to one backend result. -/
def clearsGate (t : Option (List Char)) (gate : Nat) : Bool :=
  match t with
  | some s => !s.isEmpty && decide (gate < (pyStrip s).length)
  | none => false

/-- Lean embedding of `pdf_extractor.extract_text_from_pdf`, with the four
backend calls (pdfplumber, PyMuPDF, preprocessed OCR, raw OCR) supplied as
their already-caught results. -/
def extract_text_from_pdf (r1 r2 r3 r4 : BackendOut) : ExtractionResult :=
  if clearsGate r1.text 50 then
    ⟨r1.text.getD [], "pdfplumber", true, r1.page_count⟩
  else
    let pc2 := if r2.page_count > 0 then r2.page_count else r1.page_count
    if clearsGate r2.text 50 then
      ⟨r2.text.getD [], "PyMuPDF", true, pc2⟩
    else
      let pc3 := if r3.page_count > 0 then r3.page_count else pc2
      if clearsGate r3.text 20 then
        ⟨r3.text.getD [], "OCR (pytesseract)", true, pc3⟩
      else
        let pc4 := if r4.page_count > 0 then r4.page_count else pc3
        if clearsGate r4.text 20 then
          ⟨r4.text.getD [], "OCR (pytesseract, no preprocessing)", true, pc4⟩
        else
          ⟨[], "none", false, pc4⟩

theorem clearsGate_some (s : List Char) (g : Nat) :
    clearsGate (some s) g = decide (g < (pyStrip s).length) := by
  unfold clearsGate
  by_cases he : s.isEmpty
  · have hs : s = [] := by simpa using he
    subst hs
    simp [pyStrip, pyLStrip, pyRStrip]
  · simp [he]

theorem clearsGate_true_of_len {s : List Char} {g : Nat}
    (h : g < (pyStrip s).length) : clearsGate (some s) g = true := by
  rw [clearsGate_some]
  exact decide_eq_true h

/-- C1: the coordinator tries pdfplumber, PyMuPDF, preprocessed OCR and raw
OCR strictly in that order; it returns success=true with the method tag and
text of the first backend whose stripped text length exceeds its gate (50
for the two text extractors, 20 for the two OCR variants); if no backend
clears its gate it returns success=false, method "none", empty text, and
the last observed page count (page counts update only from backends
reporting a non-zero count after the first). -/
theorem extract_text_from_pdf_cascade (r1 r2 r3 r4 : BackendOut) :
    (∀ s, r1.text = some s → 50 < (pyStrip s).length →
      extract_text_from_pdf r1 r2 r3 r4
        = ⟨s, "pdfplumber", true, r1.page_count⟩)
  ∧ (clearsGate r1.text 50 = false →
      ∀ s, r2.text = some s → 50 < (pyStrip s).length →
      extract_text_from_pdf r1 r2 r3 r4
        = ⟨s, "PyMuPDF", true,
            if r2.page_count > 0 then r2.page_count else r1.page_count⟩)
  ∧ (clearsGate r1.text 50 = false → clearsGate r2.text 50 = false →
      ∀ s, r3.text = some s → 20 < (pyStrip s).length →
      extract_text_from_pdf r1 r2 r3 r4
        = ⟨s, "OCR (pytesseract)", true,
            if r3.page_count > 0 then r3.page_count
            else if r2.page_count > 0 then r2.page_count
            else r1.page_count⟩)
  ∧ (clearsGate r1.text 50 = false → clearsGate r2.text 50 = false →
      clearsGate r3.text 20 = false →
      ∀ s, r4.text = some s → 20 < (pyStrip s).length →
      extract_text_from_pdf r1 r2 r3 r4
        = ⟨s, "OCR (pytesseract, no preprocessing)", true,
            if r4.page_count > 0 then r4.page_count
            else if r3.page_count > 0 then r3.page_count
            else if r2.page_count > 0 then r2.page_count
            else r1.page_count⟩)
  ∧ (clearsGate r1.text 50 = false → clearsGate r2.text 50 = false →
      clearsGate r3.text 20 = false → clearsGate r4.text 20 = false →
      extract_text_from_pdf r1 r2 r3 r4
        = ⟨[], "none", false,
            if r4.page_count > 0 then r4.page_count
            else if r3.page_count > 0 then r3.page_count
            else if r2.page_count > 0 then r2.page_count
            else r1.page_count⟩) := by
  refine ⟨?_, ?_, ?_, ?_, ?_⟩
  · intro s hs hlen
    unfold extract_text_from_pdf
    rw [hs, if_pos (clearsGate_true_of_len hlen)]
    simp
  · intro h1 s hs hlen
    unfold extract_text_from_pdf
    rw [h1, hs, if_neg (by simp), if_pos (clearsGate_true_of_len hlen)]
    simp
  · intro h1 h2 s hs hlen
    unfold extract_text_from_pdf
    rw [h1, h2, hs]
    rw [if_neg (by simp), if_neg (by simp),
      if_pos (clearsGate_true_of_len hlen)]
    simp
  · intro h1 h2 h3 s hs hlen
    unfold extract_text_from_pdf
    rw [h1, h2, h3, hs]
    rw [if_neg (by simp), if_neg (by simp), if_neg (by simp),
      if_pos (clearsGate_true_of_len hlen)]
    simp
  · intro h1 h2 h3 h4
    unfold extract_text_from_pdf
    rw [h1, h2, h3, h4]
    simp

/-- Witness for C1 at a concrete input: pdfplumber fails, PyMuPDF clears its
gate with 51 stripped characters and its own page count 7. -/
theorem extract_text_from_pdf_cascade_spot :
    extract_text_from_pdf ⟨none, 0⟩ ⟨some (List.replicate 51 'a'), 7⟩
        ⟨none, 0⟩ ⟨none, 0⟩
      = ⟨List.replicate 51 'a', "PyMuPDF", true, 7⟩ :=
  (extract_text_from_pdf_cascade ⟨none, 0⟩ ⟨some (List.replicate 51 'a'), 7⟩
      ⟨none, 0⟩ ⟨none, 0⟩).2.1
    (by decide) (List.replicate 51 'a') rfl (by decide)

/-! ## COA schema (coa_structure.py) -/

/-- The ordered field keys of COA_SECTIONS (coa_structure.COA_FIELD_KEYS). -/
def COA_FIELD_KEYS : List String :=
  ["document_title", "company_info", "product_name", "product_details",
   "batch_info", "storage_conditions", "test_results", "conclusion",
   "signatures", "notes"]

/-- Mapping field key to Russian label (coa_structure.COA_FIELD_LABELS). -/
def COA_FIELD_LABELS : List (String × String) :=
  [("document_title", "Наименование документа"),
   ("company_info", "Информация о компании"),
   ("product_name", "Наименование продукта"),
   ("product_details", "Сведения о продукте"),
   ("batch_info", "Информация о серии"),
   ("storage_conditions", "Условия хранения"),
   ("test_results", "Результаты испытаний"),
   ("conclusion", "Заключение"),
   ("signatures", "Подписи"),
   ("notes", "Примечания")]

/-! ## Parsed JSON values and Python dict semantics -/

/-- A JSON value as returned by Python `json.loads` (floats are modelled by
their integral values only; no claim depends on float-valued JSON). -/
inductive Json where
  | str (s : List Char)
  | num (n : Int)
  | bool (b : Bool)
  | null
  | arr (xs : List Json)
  | obj (fields : List (String × Json))

mutual

/-- Structural equality of parsed JSON values (Python `==` restricted to the
shapes produced by `json.loads`). -/
def jsonBeq : Json → Json → Bool
  | .str a, .str b => a == b
  | .num a, .num b => a == b
  | .bool a, .bool b => a == b
  | .null, .null => true
  | .arr a, .arr b => jsonListBeq a b
  | .obj a, .obj b => jsonFieldsBeq a b
  | _, _ => false

def jsonListBeq : List Json → List Json → Bool
  | [], [] => true
  | x :: xs, y :: ys => jsonBeq x y && jsonListBeq xs ys
  | _, _ => false

def jsonFieldsBeq : List (String × Json) → List (String × Json) → Bool
  | [], [] => true
  | (k1, v1) :: xs, (k2, v2) :: ys =>
    k1 == k2 && jsonBeq v1 v2 && jsonFieldsBeq xs ys
  | _, _ => false

end

/-- Character-list version of Python `str.startswith`. -/
def startsWithChars : List Char → List Char → Bool
  | [], _ => true
  | _ :: _, [] => false
  | a :: as, b :: bs => a = b && startsWithChars as bs

/-- Python substring test `needle in haystack`. -/
def isSubstring (needle : List Char) : List Char → Bool
  | [] => needle.isEmpty
  | c :: rest => startsWithChars needle (c :: rest) || isSubstring needle rest

/-- Key list of a Python dict, in insertion order. -/
def keysOf (d : List (String × Json)) : List String := d.map Prod.fst

/-- Python `key in d` for a dict. -/
def dictContains (d : List (String × Json)) (k : String) : Bool :=
  (d.lookup k).isSome

/-- Python `d[k] = v` on a dict: replace in place when the key exists,
append at the end otherwise (insertion order preserved). -/
def dictAssign (d : List (String × Json)) (k : String) (v : Json) :
    List (String × Json) :=
  if (d.lookup k).isSome then
    d.map (fun kv => if kv.1 = k then (k, v) else kv)
  else d ++ [(k, v)]

/-- The loop `for key in keys: if key not in sections: sections[key] = ""`
from `_translate_structured`, specialised to a dict argument. -/
def ensureKeys (keys : List String) (d : List (String × Json)) :
    List (String × Json) :=
  keys.foldl
    (fun acc k => if dictContains acc k then acc else acc ++ [(k, Json.str [])])
    d

/-- Python truthiness of a parsed JSON value. -/
def pyTruthy : Json → Bool
  | .str s => !s.isEmpty
  | .num n => n ≠ 0
  | .bool b => b
  | .null => false
  | .arr xs => !xs.isEmpty
  | .obj f => !f.isEmpty

/-- CPython `str()` of a parsed JSON value; exact on scalars, shape-level
for nested containers (whose rendering no claim depends on). -/
def pyStr : Json → List Char
  | .str s => s
  | .num n => (toString n).toList
  | .bool true => "True".toList
  | .bool false => "False".toList
  | .null => "None".toList
  | .arr _ => "[...]".toList
  | .obj _ => "\x7b...\x7d".toList

/-- Python `key not in sections` (negated here: the containment test) for an
arbitrary parsed value: key containment for dicts, element equality for
lists, substring test for strings; TypeError for non-iterables. -/
def pyContains (v : Json) (k : String) : Except String Bool :=
  match v with
  | .obj d => .ok (dictContains d k)
  | .arr xs => .ok (xs.any (fun x => jsonBeq x (Json.str k.toList)))
  | .str s => .ok (isSubstring k.toList s)
  | .num _ => .error "TypeError: argument of type int is not iterable"
  | .bool _ => .error "TypeError: argument of type bool is not iterable"
  | .null => .error "TypeError: argument of type NoneType is not iterable"

/-- Python `sections[key] = ""` for an arbitrary parsed value: dict
assignment, TypeError on every other shape. -/
def pyAssignEmpty (v : Json) (k : String) : Except String Json :=
  match v with
  | .obj d => .ok (.obj (dictAssign d k (.str [])))
  | .arr _ => .error "TypeError: list indices must be integers or slices, not str"
  | .str _ => .error "TypeError: str object does not support item assignment"
  | .num _ => .error "TypeError: int object does not support item assignment"
  | .bool _ => .error "TypeError: bool object does not support item assignment"
  | .null => .error "TypeError: NoneType object does not support item assignment"

/-- Python `sections[key]` with a string key: dict lookup (KeyError when
absent), TypeError on every other shape. -/
def pySubscript (v : Json) (k : String) : Except String Json :=
  match v with
  | .obj d =>
    match d.lookup k with
    | some x => .ok x
    | none => .error ("KeyError: " ++ k)
  | .arr _ => .error "TypeError: list indices must be integers or slices, not str"
  | .str _ => .error "TypeError: string indices must be integers"
  | .num _ => .error "TypeError: int object is not subscriptable"
  | .bool _ => .error "TypeError: bool object is not subscriptable"
  | .null => .error "TypeError: NoneType object is not subscriptable"

/-- The ensure-keys loop of `_translate_structured` (lines 310-312) under
Python dynamic semantics, for an arbitrary parsed JSON value. -/
def ensureKeysDyn : List String → Json → Except String Json
  | [], v => .ok v
  | k :: ks, v =>
    match pyContains v k with
    | .error e => .error e
    | .ok true => ensureKeysDyn ks v
    | .ok false =>
      match pyAssignEmpty v k with
      | .error e => .error e
      | .ok v2 => ensureKeysDyn ks v2

/-- Python `" | ".join(str(c) for c in row)` in the preview builder;
iterating a string yields its characters, iterating a dict yields its keys;
numbers, booleans and None are not iterable. -/
def cellJoin : Json → Except String (List Char)
  | .arr cells => .ok (joinSep " | ".toList (cells.map pyStr))
  | .str s => .ok (joinSep " | ".toList (s.map (fun c => [c])))
  | .obj fields => .ok (joinSep " | ".toList (fields.map (fun kv => kv.1.toList)))
  | .num _ => .error "TypeError: int object is not iterable"
  | .bool _ => .error "TypeError: bool object is not iterable"
  | .null => .error "TypeError: NoneType object is not iterable"

/-- The f-string `"[" label "]" newline body` used for each preview part. -/
def labelLine (label : String) (body : List Char) : List Char :=
  '[' :: (label.toList ++ ']' :: '\n' :: body)

/-- One iteration body of the preview loop (lines 316-324): table values are
rendered as pipe-joined rows, truthy non-list values as label + str(value),
falsy non-list values are skipped. -/
def previewEntryVal (label : String) (value : Json) :
    Except String (Option (List Char)) :=
  match value with
  | .arr rows =>
    match rows.mapM cellJoin with
    | .error e => .error e
    | .ok rstrs => .ok (some (labelLine label (joinSep ['\n'] rstrs)))
  | v => if pyTruthy v then .ok (some (labelLine label (pyStr v))) else .ok none

/-- The preview loop of `_translate_structured` over the schema keys, under
Python dynamic semantics for the `sections[key]` subscript. -/
def previewPartsDyn (v : Json) : List String → Except String (List (List Char))
  | [] => .ok []
  | k :: ks =>
    match COA_FIELD_LABELS.lookup k with
    | none => .error ("KeyError: " ++ k)
    | some label =>
      match pySubscript v k with
      | .error e => .error e
      | .ok value =>
        match previewEntryVal label value with
        | .error e => .error e
        | .ok part =>
          match previewPartsDyn v ks with
          | .error e => .error e
          | .ok parts =>
            .ok (match part with
              | some p => p :: parts
              | none => parts)

/-! ## Translation controllers (translator.py) -/

/-- Observable side effects of a translation call: a progress-callback
invocation, a per-chunk plain-mode completion request, or the single
structured-mode completion request, in issue order. -/
inductive Event where
  | progress (i n : Nat)
  | chunkRequest (idx : Nat)
  | structRequest
deriving DecidableEq

/-- The result dict built by the translation controllers. `sections` is
`none` when the dict carries no "sections" key (plain-mode success path). -/
structure TransResult where
  translated_text : List Char
  sections : Option Json
  success : Bool
  error : Option String
  model_used : String
  chunks_translated : Nat

/-- Lean embedding of `translator._error_result`. -/
def error_result (e : String) (model : String) : TransResult :=
  { translated_text := []
    sections := some (.obj [])
    success := false
    error := some e
    model_used := model
    chunks_translated := 0 }

/-- The per-chunk loop of `_translate_plain`: for chunk i it invokes the
progress callback with (i+1, total), issues the completion request, and
collects the stripped reply when the raw reply is truthy; a raised request
exception aborts the loop. Returns the collected parts (or the exception)
and the event trace. -/
def runPlainChunks (oracle : Nat → Except String (Option (List Char)))
    (total : Nat) :
    List (List Char) → Nat → Except String (List (List Char)) × List Event
  | [], _ => (.ok [], [])
  | _ :: rest, i =>
    match oracle i with
    | .error e => (.error e, [.progress (i + 1) total, .chunkRequest i])
    | .ok content =>
      let partList : List (List Char) :=
        match content with
        | some t => if t.isEmpty then [] else [pyStrip t]
        | none => []
      match runPlainChunks oracle total rest (i + 1) with
      | (.error e, evs) =>
        (.error e, .progress (i + 1) total :: .chunkRequest i :: evs)
      | (.ok parts, evs) =>
        (.ok (partList ++ parts), .progress (i + 1) total :: .chunkRequest i :: evs)

/-- Lean embedding of `translator.translate_text` (plain mode, which
delegates to `_translate_plain`). The completion call for chunk i is
supplied by `oracle i`; `.error` models a raised exception. Returns the
result dict and the trace of progress invocations and completion requests. -/
def translate_text (text : List Char) (model : String)
    (oracle : Nat → Except String (Option (List Char))) :
    TransResult × List Event :=
  if (pyStrip text).isEmpty then
    (error_result "No text provided for translation" model, [])
  else
    match runPlainChunks oracle (chunk_text text MAX_CHUNK_SIZE).length
        (chunk_text text MAX_CHUNK_SIZE) 0 with
    | (.error e, evs) => (error_result e model, evs)
    | (.ok parts, evs) =>
      ({ translated_text := joinSep ['\n', '\n'] parts
         sections := none
         success := true
         error := none
         model_used := model
         chunks_translated := (chunk_text text MAX_CHUNK_SIZE).length }, evs)

/-- Markdown code-fence stripping in `_translate_structured` (lines
300-305): when the stripped reply starts with three backticks, drop every
line whose stripped form starts with three backticks and rejoin the rest
with newlines. -/
def stripFences (s : List Char) : List Char :=
  if startsWithChars "```".toList s then
    joinSep ['\n']
      ((splitChar '\n' s).filter
        (fun l => !startsWithChars "```".toList (pyStrip l)))
  else s

/-- The best-effort sections dict built on the plain-mode fallback path:
every schema key maps to the empty string, then "notes" is assigned the
whole plain translation. -/
def fallbackSections (txt : List Char) : List (String × Json) :=
  dictAssign (COA_FIELD_KEYS.map (fun k => (k, Json.str []))) "notes"
    (Json.str txt)

/-- Lean embedding of `translator.translate_text_structured` (which
delegates to `_translate_structured`). `reply` is the outcome of the single
structured completion call (`.error` = raised exception, `.ok` = message
content, possibly None); `jsonLoads` models Python `json.loads` applied to
the fence-stripped reply (`.error` = json.JSONDecodeError); `oracle` serves
the plain-mode fallback chunks. -/
def translate_text_structured (text : List Char) (model : String)
    (jsonLoads : List Char → Except String Json)
    (reply : Except String (Option (List Char)))
    (oracle : Nat → Except String (Option (List Char))) :
    TransResult × List Event :=
  if (pyStrip text).isEmpty then
    (error_result "No text provided for translation" model, [])
  else
    match reply with
    | .error e => (error_result e model, [.progress 1 2, .structRequest])
    | .ok content =>
      match jsonLoads (stripFences (pyStrip (content.getD []))) with
      | .ok v =>
        match ensureKeysDyn COA_FIELD_KEYS v with
        | .error e =>
          (error_result e model, [.progress 1 2, .structRequest, .progress 2 2])
        | .ok v2 =>
          match previewPartsDyn v2 COA_FIELD_KEYS with
          | .error e =>
            (error_result e model, [.progress 1 2, .structRequest, .progress 2 2])
          | .ok parts =>
            ({ translated_text := joinSep ['\n', '\n'] parts
               sections := some v2
               success := true
               error := none
               model_used := model
               chunks_translated := 1 },
              [.progress 1 2, .structRequest, .progress 2 2])
      | .error _ =>
        match translate_text text model oracle with
        | (plainRes, plainEvs) =>
          if plainRes.success then
            ({ plainRes with
                sections := some (.obj (fallbackSections plainRes.translated_text)) },
              [.progress 1 2, .structRequest, .progress 2 2] ++ plainEvs)
          else
            (plainRes,
              [.progress 1 2, .structRequest, .progress 2 2] ++ plainEvs)

/-! ## Whitespace-only input (C7) -/

theorem dropWhile_eq_nil_of_all {l : List Char} (h : ∀ c ∈ l, isPySpace c) :
    l.dropWhile isPySpace = [] := by
  induction l with
  | nil => rfl
  | cons c rest ih =>
    rw [List.dropWhile_cons, if_pos (h c (List.mem_cons_self c rest))]
    exact ih (fun x hx => h x (List.mem_cons_of_mem c hx))

theorem pyStrip_eq_nil_of_all {l : List Char} (h : ∀ c ∈ l, isPySpace c) :
    pyStrip l = [] := by
  have h1 : pyRStrip l = [] := by
    unfold pyRStrip
    rw [dropWhile_eq_nil_of_all (fun c hc => h c (List.mem_reverse.1 hc))]
    rfl
  rw [pyStrip, h1]
  rfl

/-- C7: for whitespace-only input (including the empty string), both
translation modes return the fail-fast error result — success=false with a
descriptive message and chunks_translated = 0 — and issue no
completion-service request (the event trace is empty). -/
theorem whitespace_input_fails_fast (text : List Char) (model : String)
    (oracle : Nat → Except String (Option (List Char)))
    (jsonLoads : List Char → Except String Json)
    (reply : Except String (Option (List Char)))
    (hws : ∀ c ∈ text, isPySpace c) :
    translate_text text model oracle
        = (error_result "No text provided for translation" model, [])
      ∧ translate_text_structured text model jsonLoads reply oracle
        = (error_result "No text provided for translation" model, [])
      ∧ (error_result "No text provided for translation" model).success = false
      ∧ (error_result "No text provided for translation" model).chunks_translated
          = 0 := by
  have he : (pyStrip text).isEmpty = true := by
    rw [pyStrip_eq_nil_of_all hws]
    rfl
  refine ⟨?_, ?_, rfl, rfl⟩
  · unfold translate_text
    rw [if_pos he]
  · unfold translate_text_structured
    rw [if_pos he]

/-- Witness for C7 at a concrete input: a single-space input string. -/
theorem whitespace_input_fails_fast_spot :
    translate_text [' '] "gpt-4o" (fun _ => .ok (some ['x']))
      = (error_result "No text provided for translation" "gpt-4o", []) :=
  (whitespace_input_fails_fast [' '] "gpt-4o" (fun _ => .ok (some ['x']))
    (fun _ => .ok .null) (.ok none) (by decide)).1

/-! ## Progress-callback timing in plain mode (C8) -/

/-- C8 is false as stated: in a one-chunk plain translation the very first
event is the progress invocation (1, 1), which is issued BEFORE the
completion request for that chunk, not after the request has returned. -/
theorem plain_progress_before_request_cex :
    (translate_text ['a', 'b'] "m" (fun _ => .ok (some ['x']))).2
        = [.progress 1 1, .chunkRequest 0]
      ∧ (translate_text ['a', 'b'] "m" (fun _ => .ok (some ['x']))).2.head?
        = some (.progress 1 1) :=
  ⟨rfl, rfl⟩

theorem runPlainChunks_trace
    (oracle : Nat → Except String (Option (List Char))) (total : Nat)
    (hok : ∀ i, ∃ c, oracle i = .ok c) :
    ∀ (chunks : List (List Char)) (start : Nat),
      (runPlainChunks oracle total chunks start).2
        = ((List.range chunks.length).map
            (fun j => [Event.progress (start + j + 1) total,
                       Event.chunkRequest (start + j)])).flatten := by
  intro chunks
  induction chunks with
  | nil => intro start; rfl
  | cons c rest ih =>
    intro start
    obtain ⟨cnt, hcnt⟩ := hok start
    unfold runPlainChunks
    rw [hcnt]
    rcases hr : runPlainChunks oracle total rest (start + 1) with ⟨res, evs⟩
    have hevs : evs
        = ((List.range rest.length).map
            (fun j => [Event.progress (start + 1 + j + 1) total,
                       Event.chunkRequest (start + 1 + j)])).flatten := by
      have := ih (start + 1)
      rw [hr] at this
      exact this
    have hrange : ((List.range (rest.length + 1)).map
          (fun j => [Event.progress (start + j + 1) total,
                     Event.chunkRequest (start + j)])).flatten
        = [Event.progress (start + 1) total, Event.chunkRequest start]
          ++ ((List.range rest.length).map
              (fun j => [Event.progress (start + 1 + j + 1) total,
                         Event.chunkRequest (start + 1 + j)])).flatten := by
      rw [List.range_succ_eq_map, List.map_cons, List.flatten_cons,
        List.map_map]
      have harith : ∀ j,
          ((fun j => [Event.progress (start + j + 1) total,
                      Event.chunkRequest (start + j)]) ∘ Nat.succ) j
            = (fun j => [Event.progress (start + 1 + j + 1) total,
                         Event.chunkRequest (start + 1 + j)]) j := by
        intro j
        simp only [Function.comp, Nat.succ_eq_add_one]
        have ha : start + (j + 1) + 1 = start + 1 + j + 1 := by omega
        have hb : start + (j + 1) = start + 1 + j := by omega
        rw [ha, hb]
      rw [funext harith]
      simp
    cases res with
    | error e =>
      simp only [List.length_cons, hrange]
      rw [← hevs]
      rfl
    | ok parts =>
      simp only [List.length_cons, hrange]
      rw [← hevs]
      rfl

/-- C8 (amended): in a plain-mode translation splitting into n chunks with
every completion call returning normally, the progress callback is invoked
exactly n times with arguments (i, n) for i = 1..n in increasing order, and
each invocation for chunk i occurs immediately BEFORE the completion call
for chunk i is issued, not after it returns. -/
theorem plain_progress_trace (text : List Char) (model : String)
    (oracle : Nat → Except String (Option (List Char)))
    (h1 : (pyStrip text).isEmpty = false)
    (hok : ∀ i, ∃ c, oracle i = .ok c) :
    (translate_text text model oracle).2
      = ((List.range (chunk_text text MAX_CHUNK_SIZE).length).map
          (fun i =>
            [Event.progress (i + 1) (chunk_text text MAX_CHUNK_SIZE).length,
             Event.chunkRequest i])).flatten := by
  unfold translate_text
  rw [if_neg (by simp [h1])]
  have ht := runPlainChunks_trace oracle
    (chunk_text text MAX_CHUNK_SIZE).length hok
    (chunk_text text MAX_CHUNK_SIZE) 0
  rcases hr : runPlainChunks oracle (chunk_text text MAX_CHUNK_SIZE).length
      (chunk_text text MAX_CHUNK_SIZE) 0 with ⟨res, evs⟩
  rw [hr] at ht
  cases res with
  | error e => simpa using ht
  | ok parts => simpa using ht

/-- Witness for amended C8 at a concrete input: a two-character text forms
one chunk, and the trace is the progress invocation (1,1) followed by the
chunk-0 request. -/
theorem plain_progress_trace_spot :
    (translate_text ['c', 'd'] "m" (fun _ => .ok (some ['y']))).2
      = ((List.range (chunk_text ['c', 'd'] MAX_CHUNK_SIZE).length).map
          (fun i =>
            [Event.progress (i + 1) (chunk_text ['c', 'd'] MAX_CHUNK_SIZE).length,
             Event.chunkRequest i])).flatten :=
  plain_progress_trace ['c', 'd'] "m" (fun _ => .ok (some ['y']))
    (by decide) (fun _ => ⟨some ['y'], rfl⟩)

/-! ## Structured sections key set (C2) -/

theorem ensureKeys_cons (k : String) (ks : List String)
    (d : List (String × Json)) :
    ensureKeys (k :: ks) d
      = ensureKeys ks
          (if dictContains d k then d else d ++ [(k, Json.str [])]) := by
  unfold ensureKeys
  rw [List.foldl_cons]

theorem lookup_cons_self {k : String} {v : Json} {rest : List (String × Json)} :
    List.lookup k ((k, v) :: rest) = some v := by
  rw [List.lookup_cons]
  simp

theorem lookup_cons_ne {k k1 : String} {v1 : Json} {rest : List (String × Json)}
    (h : ¬ k = k1) : List.lookup k ((k1, v1) :: rest) = List.lookup k rest := by
  rw [List.lookup_cons]
  have hb : (k == k1) = false := by simpa using h
  rw [hb]

theorem dictContains_cons (k1 : String) (v1 : Json)
    (rest : List (String × Json)) (k : String) :
    dictContains ((k1, v1) :: rest) k = (k == k1 || dictContains rest k) := by
  by_cases he : k = k1
  · subst he
    unfold dictContains
    rw [lookup_cons_self]
    simp
  · unfold dictContains
    rw [lookup_cons_ne he]
    have hb : (k == k1) = false := by simpa using he
    rw [hb, Bool.false_or]

theorem ensureKeysDyn_obj (ks : List String) :
    ∀ d, ensureKeysDyn ks (Json.obj d) = .ok (.obj (ensureKeys ks d)) := by
  induction ks with
  | nil =>
    intro d
    simp [ensureKeysDyn, ensureKeys]
  | cons k ks ih =>
    intro d
    by_cases h : dictContains d k = true
    · have hpc : pyContains (Json.obj d) k = .ok true := by
        rw [show pyContains (Json.obj d) k = .ok (dictContains d k) from rfl, h]
      have hstep : ensureKeysDyn (k :: ks) (Json.obj d)
          = ensureKeysDyn ks (Json.obj d) := by
        simp only [ensureKeysDyn]
        rw [hpc]
      rw [hstep, ensureKeys_cons, if_pos h]
      exact ih d
    · have hb : dictContains d k = false := by simpa using h
      have hpc : pyContains (Json.obj d) k = .ok false := by
        rw [show pyContains (Json.obj d) k = .ok (dictContains d k) from rfl, hb]
      have hassign : pyAssignEmpty (Json.obj d) k
          = .ok (.obj (d ++ [(k, Json.str [])])) := by
        simp only [pyAssignEmpty]
        unfold dictAssign
        rw [if_neg (by simp [show (d.lookup k).isSome = false from hb])]
      have hstep : ensureKeysDyn (k :: ks) (Json.obj d)
          = ensureKeysDyn ks (Json.obj (d ++ [(k, Json.str [])])) := by
        simp only [ensureKeysDyn]
        rw [hpc, hassign]
      rw [hstep, ensureKeys_cons, if_neg h]
      exact ih (d ++ [(k, Json.str [])])

theorem dictContains_append_single (d : List (String × Json))
    (k x : String) (v : Json) :
    dictContains (d ++ [(k, v)]) x = (dictContains d x || x == k) := by
  induction d with
  | nil =>
    by_cases he : x = k
    · subst he
      simp [dictContains, lookup_cons_self]
    · have hb : (x == k) = false := by simpa using he
      simp [dictContains, lookup_cons_ne he, hb, List.lookup]
  | cons p rest ih =>
    obtain ⟨k1, v1⟩ := p
    rw [List.cons_append, dictContains_cons, dictContains_cons, ih,
      Bool.or_assoc]

theorem ensureKeys_eq_of_nodup (ks : List String) (hnd : ks.Nodup) :
    ∀ d, ensureKeys ks d
      = d ++ (ks.filter (fun k => !dictContains d k)).map
          (fun k => (k, Json.str [])) := by
  induction ks with
  | nil => intro d; simp [ensureKeys]
  | cons k ks ih =>
    intro d
    have hk : k ∉ ks := (List.nodup_cons.1 hnd).1
    have hnd2 : ks.Nodup := (List.nodup_cons.1 hnd).2
    rw [ensureKeys_cons]
    by_cases h : dictContains d k
    · rw [if_pos h, ih hnd2 d, List.filter_cons]
      simp [h]
    · rw [if_neg h, ih hnd2 (d ++ [(k, Json.str [])]), List.filter_cons]
      have hfc : ks.filter (fun x => !dictContains (d ++ [(k, Json.str [])]) x)
          = ks.filter (fun x => !dictContains d x) := by
        apply List.filter_congr
        intro x hx
        rw [dictContains_append_single]
        have hxk : (x == k) = false := by
          simp only [beq_eq_false_iff_ne, ne_eq]
          intro he
          exact hk (he ▸ hx)
        rw [hxk, Bool.or_false]
      rw [hfc]
      have hb2 : (!dictContains d k) = true := by simp [h]
      rw [hb2, if_pos rfl, List.map_cons, List.append_assoc]
      rfl

theorem dictContains_iff_mem (d : List (String × Json)) (k : String) :
    dictContains d k = true ↔ k ∈ keysOf d := by
  induction d with
  | nil => simp [dictContains, keysOf, List.lookup]
  | cons p rest ih =>
    obtain ⟨k1, v1⟩ := p
    rw [dictContains_cons]
    simp only [keysOf, List.map_cons, List.mem_cons, Bool.or_eq_true,
      beq_iff_eq]
    rw [show (dictContains rest k = true ↔ k ∈ keysOf rest) from ih]
    rfl

theorem keysOf_append_map (d : List (String × Json)) (l : List String) :
    keysOf (d ++ l.map (fun k => (k, Json.str []))) = keysOf d ++ l := by
  simp only [keysOf, List.map_append, List.map_map]
  congr 1
  have hcomp : (Prod.fst ∘ fun k => ((k, Json.str []) : String × Json))
      = id := by
    funext x
    rfl
  rw [hcomp, List.map_id]

theorem lookup_append_of_absent (d l : List (String × Json)) (k : String)
    (h : d.lookup k = none) : (d ++ l).lookup k = l.lookup k := by
  induction d with
  | nil => simp
  | cons p rest ih =>
    obtain ⟨k1, v1⟩ := p
    by_cases he : k = k1
    · subst he
      rw [lookup_cons_self] at h
      exact absurd h (by simp)
    · rw [lookup_cons_ne he] at h
      rw [List.cons_append, lookup_cons_ne he]
      exact ih h

theorem lookup_map_const (ks : List String) (k : String) (hk : k ∈ ks) :
    (ks.map (fun x => (x, Json.str []))).lookup k = some (Json.str []) := by
  induction ks with
  | nil => cases hk
  | cons x rest ih =>
    by_cases he : k = x
    · subst he
      rw [List.map_cons, lookup_cons_self]
    · rw [List.map_cons, lookup_cons_ne he]
      refine ih ?_
      rcases List.mem_cons.1 hk with h | h
      · exact absurd h he
      · exact h

theorem COA_FIELD_KEYS_nodup : COA_FIELD_KEYS.Nodup := by decide

/-- C2 is false as stated: a parsed JSON object with the non-Schema key
"foo" yields a returned sections map that retains "foo" in front of the
appended Schema keys, so the key set is not the Schema key set. -/
theorem structured_sections_extra_key_cex :
    (match (translate_text_structured ['t'] "m"
        (fun _ => .ok (.obj [("foo", .str ['x'])]))
        (.ok (some ['r'])) (fun _ => .error "unused")).1.sections with
      | some (.obj d) => keysOf d
      | _ => []) = "foo" :: COA_FIELD_KEYS
    ∧ "foo" ∉ COA_FIELD_KEYS :=
  ⟨rfl, by decide⟩

/-- C2 (amended): for every model reply that parses as a JSON object (and
whose preview rendering raises no error), the returned sections map is the
parsed object extended in place with an empty string for every absent
Schema key; its key set is therefore the union of the parsed object's keys
and the Schema keys — a superset of the Schema key set, with keys outside
the Schema retained rather than dropped. -/
theorem structured_sections_keys (text : List Char) (model : String)
    (jsonLoads : List Char → Except String Json)
    (reply : Except String (Option (List Char)))
    (oracle : Nat → Except String (Option (List Char)))
    (content : List Char) (fields : List (String × Json))
    (parts : List (List Char))
    (h1 : (pyStrip text).isEmpty = false)
    (h2 : reply = .ok (some content))
    (h3 : jsonLoads (stripFences (pyStrip content)) = .ok (.obj fields))
    (h4 : previewPartsDyn (.obj (ensureKeys COA_FIELD_KEYS fields))
            COA_FIELD_KEYS = .ok parts) :
    (translate_text_structured text model jsonLoads reply oracle).1.sections
        = some (.obj (ensureKeys COA_FIELD_KEYS fields))
      ∧ (∀ k, k ∈ keysOf (ensureKeys COA_FIELD_KEYS fields)
            ↔ (k ∈ keysOf fields ∨ k ∈ COA_FIELD_KEYS))
      ∧ (∀ k ∈ COA_FIELD_KEYS, dictContains fields k = false →
          (ensureKeys COA_FIELD_KEYS fields).lookup k
            = some (Json.str [])) := by
  subst h2
  have hclosed := ensureKeys_eq_of_nodup COA_FIELD_KEYS COA_FIELD_KEYS_nodup
    fields
  refine ⟨?_, ?_, ?_⟩
  · unfold translate_text_structured
    rw [if_neg (by simp [h1])]
    simp only [Option.getD_some, h3, ensureKeysDyn_obj, h4]
  · intro k
    rw [hclosed, keysOf_append_map, List.mem_append, List.mem_filter]
    constructor
    · intro hor
      rcases hor with h | h
      · exact Or.inl h
      · exact Or.inr h.1
    · intro hor
      rcases hor with h | h
      · exact Or.inl h
      · by_cases hd : dictContains fields k
        · exact Or.inl ((dictContains_iff_mem fields k).1 hd)
        · refine Or.inr ⟨h, ?_⟩
          simp [hd]
  · intro k hk hd
    rw [hclosed]
    rw [lookup_append_of_absent]
    · rw [show ((COA_FIELD_KEYS.filter (fun k => !dictContains fields k)).map
          (fun k => (k, Json.str []))) =
          ((COA_FIELD_KEYS.filter (fun k => !dictContains fields k)).map
          (fun x => (x, Json.str []))) from rfl]
      apply lookup_map_const
      rw [List.mem_filter]
      exact ⟨hk, by simp [hd]⟩
    · have : (fields.lookup k).isSome = false := hd
      exact Option.not_isSome_iff_eq_none.1 (by simp [this])

/-- Witness for amended C2 at a concrete input: a parsed object with the
single non-Schema key "bar" mapped to an empty string. -/
theorem structured_sections_keys_spot :
    (translate_text_structured ['u'] "m"
        (fun _ => .ok (.obj [("bar", .str [])]))
        (.ok (some ['s'])) (fun _ => .error "unused")).1.sections
      = some (.obj (ensureKeys COA_FIELD_KEYS [("bar", Json.str [])])) :=
  (structured_sections_keys ['u'] "m"
    (fun _ => .ok (.obj [("bar", .str [])]))
    (.ok (some ['s'])) (fun _ => .error "unused")
    ['s'] [("bar", Json.str [])] [] rfl rfl rfl rfl).1

/-! ## Plain-mode fallback on malformed structured replies (C3) -/

theorem fallbackSections_lookup_notes (txt : List Char) :
    (fallbackSections txt).lookup "notes" = some (.str txt) := rfl

theorem fallbackSections_lookup_other (txt : List Char) :
    ∀ k ∈ COA_FIELD_KEYS, k ≠ "notes" →
      (fallbackSections txt).lookup k = some (.str []) := by
  intro k hk hne
  fin_cases hk
  · rfl
  · rfl
  · rfl
  · rfl
  · rfl
  · rfl
  · rfl
  · rfl
  · rfl
  · exact absurd rfl hne

/-- C3: when the structured-mode reply is not valid JSON after code-fence
stripping, the controller falls back to plain-mode translation of the same
input text; whenever that plain call succeeds, the returned result has
success=true and a sections map in which "notes" holds the entire plain
translation and every other Schema key is the empty string. -/
theorem structured_fallback_to_plain (text : List Char) (model : String)
    (jsonLoads : List Char → Except String Json)
    (reply : Except String (Option (List Char)))
    (oracle : Nat → Except String (Option (List Char)))
    (content : Option (List Char)) (msg : String)
    (h1 : (pyStrip text).isEmpty = false)
    (h2 : reply = .ok content)
    (h3 : jsonLoads (stripFences (pyStrip (content.getD []))) = .error msg)
    (h4 : (translate_text text model oracle).1.success = true) :
    (translate_text_structured text model jsonLoads reply oracle).1.success
        = true
      ∧ (translate_text_structured text model jsonLoads reply oracle).1.sections
        = some (.obj (fallbackSections
            (translate_text text model oracle).1.translated_text))
      ∧ (fallbackSections
            (translate_text text model oracle).1.translated_text).lookup "notes"
        = some (.str (translate_text text model oracle).1.translated_text)
      ∧ (∀ k ∈ COA_FIELD_KEYS, k ≠ "notes" →
          (fallbackSections
              (translate_text text model oracle).1.translated_text).lookup k
            = some (.str [])) := by
  subst h2
  refine ⟨?_, ?_, fallbackSections_lookup_notes _,
    fallbackSections_lookup_other _⟩
  · unfold translate_text_structured
    rw [if_neg (by simp [h1])]
    simp only [h3, if_pos h4]
    exact h4
  · unfold translate_text_structured
    rw [if_neg (by simp [h1])]
    simp only [h3, if_pos h4]

/-- Witness for C3 at a concrete input: a non-JSON reply makes structured
mode fall back to a successful one-chunk plain translation. -/
theorem structured_fallback_to_plain_spot :
    (translate_text_structured ['h', 'i'] "m"
        (fun _ => .error "Expecting value")
        (.ok (some ['n', 'o']))
        (fun _ => .ok (some ['п']))).1.success = true :=
  (structured_fallback_to_plain ['h', 'i'] "m"
    (fun _ => .error "Expecting value") (.ok (some ['n', 'o']))
    (fun _ => .ok (some ['п'])) (some ['n', 'o']) "Expecting value"
    rfl rfl rfl rfl).1

/-! ## Structurally non-object JSON replies (C10) -/

theorem ensureKeysDyn_nonobj (ks : List String) :
    ∀ v : Json, (∀ d, v ≠ .obj d) →
      (∃ e, ensureKeysDyn ks v = .error e) ∨ ensureKeysDyn ks v = .ok v := by
  induction ks with
  | nil =>
    intro v _
    exact Or.inr rfl
  | cons k ks ih =>
    intro v hv
    match v with
    | .obj d => exact absurd rfl (hv d)
    | .arr xs =>
      cases hb : xs.any (fun x => jsonBeq x (Json.str k.toList)) with
      | true =>
        have hstep : ensureKeysDyn (k :: ks) (Json.arr xs)
            = ensureKeysDyn ks (Json.arr xs) := by
          simp only [ensureKeysDyn, pyContains]
          rw [hb]
        rw [hstep]
        exact ih (Json.arr xs) hv
      | false =>
        have hstep : ensureKeysDyn (k :: ks) (Json.arr xs)
            = .error "TypeError: list indices must be integers or slices, not str" := by
          simp only [ensureKeysDyn, pyContains]
          rw [hb]
          rfl
        exact Or.inl ⟨_, hstep⟩
    | .str s =>
      cases hb : isSubstring k.toList s with
      | true =>
        have hstep : ensureKeysDyn (k :: ks) (Json.str s)
            = ensureKeysDyn ks (Json.str s) := by
          simp only [ensureKeysDyn, pyContains]
          rw [hb]
        rw [hstep]
        exact ih (Json.str s) hv
      | false =>
        have hstep : ensureKeysDyn (k :: ks) (Json.str s)
            = .error "TypeError: str object does not support item assignment" := by
          simp only [ensureKeysDyn, pyContains]
          rw [hb]
          rfl
        exact Or.inl ⟨_, hstep⟩
    | .num n => exact Or.inl ⟨_, rfl⟩
    | .bool b => exact Or.inl ⟨_, rfl⟩
    | .null => exact Or.inl ⟨_, rfl⟩

theorem previewPartsDyn_nonobj (v : Json) (hv : ∀ d, v ≠ .obj d) :
    ∃ e, previewPartsDyn v COA_FIELD_KEYS = .error e := by
  match v with
  | .obj d => exact absurd rfl (hv d)
  | .arr xs => exact ⟨_, rfl⟩
  | .str s => exact ⟨_, rfl⟩
  | .num n => exact ⟨_, rfl⟩
  | .bool b => exact ⟨_, rfl⟩
  | .null => exact ⟨_, rfl⟩

/-- C10: a structured-mode reply that parses as valid JSON but is not a
JSON object (array, string, number, boolean or null) makes the controller
raise a TypeError inside its own processing, which the generic handler
returns as an error result with success=false carrying the exception
message; the plain-mode fallback is NOT invoked — no plain chunk request
appears in the trace, which stays exactly the structured-mode prefix. -/
theorem structured_non_object_reply (text : List Char) (model : String)
    (jsonLoads : List Char → Except String Json)
    (reply : Except String (Option (List Char)))
    (oracle : Nat → Except String (Option (List Char)))
    (content : Option (List Char)) (v : Json)
    (h1 : (pyStrip text).isEmpty = false)
    (h2 : reply = .ok content)
    (h3 : jsonLoads (stripFences (pyStrip (content.getD []))) = .ok v)
    (h4 : ∀ d, v ≠ .obj d) :
    ∃ e, translate_text_structured text model jsonLoads reply oracle
        = (error_result e model,
           [.progress 1 2, .structRequest, .progress 2 2]) := by
  subst h2
  unfold translate_text_structured
  rw [if_neg (by simp [h1])]
  rcases ensureKeysDyn_nonobj COA_FIELD_KEYS v h4 with ⟨e, he⟩ | heq
  · refine ⟨e, ?_⟩
    simp only [h3, he]
  · obtain ⟨e, hp⟩ := previewPartsDyn_nonobj v h4
    refine ⟨e, ?_⟩
    simp only [h3, heq, hp]

/-- Witness for C10 at a concrete input: the reply parses as the JSON array
[], which is not an object. -/
theorem structured_non_object_reply_spot :
    ∃ e, translate_text_structured ['a'] "m" (fun _ => .ok (.arr []))
        (.ok (some ['z'])) (fun _ => .error "unused")
      = (error_result e "m",
         [.progress 1 2, .structRequest, .progress 2 2]) :=
  structured_non_object_reply ['a'] "m" (fun _ => .ok (.arr []))
    (.ok (some ['z'])) (fun _ => .error "unused") (some ['z']) (.arr [])
    rfl rfl rfl (fun _ h => Json.noConfusion h)

/-! ## Exceptions never escape the entry points (C4) -/

theorem dropWhile_head_not (p : Char → Bool) :
    ∀ (l : List Char) (c : Char) (rest : List Char),
      l.dropWhile p = c :: rest → p c = false := by
  intro l
  induction l with
  | nil => intro c rest h; cases h
  | cons x xs ih =>
    intro c rest h
    rw [List.dropWhile_cons] at h
    by_cases hp : p x
    · rw [if_pos hp] at h
      exact ih c rest h
    · rw [if_neg hp] at h
      cases h
      simpa using hp

theorem nws_ne_nil_of_strip {text : List Char}
    (h : (pyStrip text).isEmpty = false) : nws text ≠ [] := by
  rcases hc : pyStrip text with _ | ⟨c, rest⟩
  · rw [hc] at h
    cases h
  · have hpc : isPySpace c = false := by
      refine dropWhile_head_not isPySpace (pyRStrip text) c rest ?_
      rw [← hc]
      rfl
    intro hnil
    have h2 : nws (pyStrip text) = nws text := nws_pyStrip text
    rw [hc, hnil] at h2
    have hmem : c ∈ nws (c :: rest) := by
      simp [nws, List.filter_cons, hpc]
    rw [h2] at hmem
    cases hmem

theorem chunk_text_ne_nil {text : List Char}
    (h : (pyStrip text).isEmpty = false) :
    chunk_text text MAX_CHUNK_SIZE ≠ [] := by
  intro hnil
  have h1 := chunk_text_content text MAX_CHUNK_SIZE
  rw [hnil] at h1
  exact nws_ne_nil_of_strip h h1.symm

theorem translate_text_shape (text : List Char) (model : String)
    (oracle : Nat → Except String (Option (List Char))) :
    (translate_text text model oracle).1.success = false
      ↔ ((translate_text text model oracle).1.error).isSome = true := by
  unfold translate_text
  by_cases h : (pyStrip text).isEmpty
  · rw [if_pos h]
    simp [error_result]
  · rw [if_neg h]
    rcases hr : runPlainChunks oracle (chunk_text text MAX_CHUNK_SIZE).length
        (chunk_text text MAX_CHUNK_SIZE) 0 with ⟨res, evs⟩
    cases res with
    | error e => simp [error_result]
    | ok parts => simp

theorem translate_structured_shape (text : List Char) (model : String)
    (jsonLoads : List Char → Except String Json)
    (reply : Except String (Option (List Char)))
    (oracle : Nat → Except String (Option (List Char))) :
    (translate_text_structured text model jsonLoads reply oracle).1.success
        = false
      ↔ ((translate_text_structured text model jsonLoads
            reply oracle).1.error).isSome = true := by
  unfold translate_text_structured
  by_cases h : (pyStrip text).isEmpty
  · rw [if_pos h]
    simp [error_result]
  · rw [if_neg h]
    cases reply with
    | error e => simp [error_result]
    | ok content =>
      rcases hj : jsonLoads (stripFences (pyStrip (content.getD [])))
          with msg | v
      · rcases hpr : translate_text text model oracle
            with ⟨plainRes, plainEvs⟩
        have hshape := translate_text_shape text model oracle
        rw [hpr] at hshape
        simp only [hj, hpr]
        by_cases hs : plainRes.success = true
        · rw [if_pos hs]
          have herr : plainRes.error.isSome = false := by
            cases hb : plainRes.error.isSome with
            | false => rfl
            | true =>
              have hf : plainRes.success = false := hshape.2 hb
              rw [hf] at hs
              cases hs
          simp [hs, herr]
        · rw [if_neg hs]
          exact hshape
      · simp only [hj]
        rcases he : ensureKeysDyn COA_FIELD_KEYS v with e | v2
        · simp [he, error_result]
        · simp only [he]
          rcases hp : previewPartsDyn v2 COA_FIELD_KEYS with e | parts
          · simp [hp, error_result]
          · simp [hp]

/-- C4: no exception escapes the three entry points. A raised exception in
every backend still yields a plain extraction result dict (success=false);
either translation mode maps any raised completion exception to the
error-result dict carrying its message; and in both translation modes,
for every oracle behaviour, failure is encoded in the success/error result
fields (success=false exactly when an error string is present) rather than
propagated as an exception. -/
theorem entry_points_encode_errors (text : List Char) (model : String)
    (oracle : Nat → Except String (Option (List Char)))
    (jsonLoads : List Char → Except String Json)
    (reply : Except String (Option (List Char)))
    (e1 e2 e3 e4 e : String) :
    extract_text_from_pdf (runBackend (.error e1)) (runBackend (.error e2))
        (runBackend (.error e3)) (runBackend (.error e4))
      = ⟨[], "none", false, 0⟩
    ∧ ((translate_text text model oracle).1.success = false
        ↔ ((translate_text text model oracle).1.error).isSome = true)
    ∧ ((translate_text_structured text model jsonLoads reply oracle).1.success
          = false
        ↔ ((translate_text_structured text model jsonLoads
              reply oracle).1.error).isSome = true)
    ∧ ((pyStrip text).isEmpty = false →
        (translate_text text model (fun _ => .error e)).1
          = error_result e model)
    ∧ ((pyStrip text).isEmpty = false →
        (translate_text_structured text model jsonLoads (.error e) oracle).1
          = error_result e model) := by
  refine ⟨rfl, translate_text_shape text model oracle,
    translate_structured_shape text model jsonLoads reply oracle, ?_, ?_⟩
  · intro h1
    unfold translate_text
    rw [if_neg (by simp [h1])]
    obtain ⟨c, rest, hcr⟩ :
        ∃ c rest, chunk_text text MAX_CHUNK_SIZE = c :: rest := by
      rcases hh : chunk_text text MAX_CHUNK_SIZE with _ | ⟨c, rest⟩
      · exact absurd hh (chunk_text_ne_nil h1)
      · exact ⟨c, rest, rfl⟩
    rw [hcr]
    rfl
  · intro h1
    unfold translate_text_structured
    rw [if_neg (by simp [h1])]

/-- Witness for C4 at a concrete input: a completion service that raises
"boom" on every call makes plain-mode translation return the error result
for "boom". -/
theorem entry_points_encode_errors_spot :
    (translate_text ['z'] "m" (fun _ => .error "boom")).1
      = error_result "boom" "m" :=
  (entry_points_encode_errors ['z'] "m" (fun _ => .error "boom")
    (fun _ => .ok .null) (.ok none) "a" "b" "c" "d" "boom").2.2.2.1 rfl

/-! ## OCR image preprocessing geometry
(pdf_extractor._preprocess_image_for_ocr, step 2) -/

/-- A non-negative rational as an unreduced fraction numerator/denominator;
binary64 values are dyadic rationals, represented here exactly. -/
def Frac : Type := Nat × Nat

/-- Fuel-driven binary digit count (fuel `n` always suffices). -/
def natBitsAux : Nat → Nat → Nat
  | 0, _ => 0
  | fuel + 1, n => if n = 0 then 0 else natBitsAux fuel (n / 2) + 1

/-- Number of binary digits of a natural number (0 has none). -/
def natBits (n : Nat) : Nat := natBitsAux n n

/-- Powers of two as fractions, with integer exponent. -/
def twoPowFrac (k : Int) : Frac :=
  if 0 ≤ k then (2 ^ k.toNat, 1) else (1, 2 ^ (-k).toNat)

/-- Fraction product. -/
def fracMul (x y : Frac) : Frac := (x.1 * y.1, x.2 * y.2)

/-- Fraction comparison by cross multiplication. -/
def fracLt (x y : Frac) : Bool := x.1 * y.2 < y.1 * x.2

/-- Fraction floor. -/
def fracFloor (x : Frac) : Nat := x.1 / x.2

/-- Round a positive fraction to the nearest IEEE-754 binary64 value
(round half to even) — the arithmetic CPython float operations perform.
Exact for the magnitudes arising in the resize computation (no overflow,
no subnormals, no zero or negative operands). -/
def roundB64 (q : Frac) : Frac :=
  let e0 : Int := (natBits q.1 : Int) - (natBits q.2 : Int)
  let e : Int := if fracLt q (twoPowFrac e0) then e0 - 1 else e0
  let s : Frac := fracMul q (twoPowFrac (52 - e))
  let fl := s.1 / s.2
  let rem2 := 2 * (s.1 - fl * s.2)
  let fl2 := if s.2 < rem2 ∨ (rem2 = s.2 ∧ fl % 2 = 1) then fl + 1 else fl
  fracMul (fl2, 1) (twoPowFrac (e - 52))

/-- The correctly rounded binary64 quotient of two positive integers — the
Python expression `min_width / img.width` (a true float division). -/
def floatDiv (x y : Nat) : Frac := roundB64 (x, y)

/-- The correctly rounded binary64 product of an integer and a float — the
Python expressions `img.width * scale` and `img.height * scale`. -/
def floatMulNat (x : Nat) (y : Frac) : Frac := roundB64 (fracMul (x, 1) y)

/-- The size transformation of `_preprocess_image_for_ocr`:
step 2 resizes iff `img.width < 2000` with `scale = 2000 / img.width` and
new size `(int(img.width * scale), int(img.height * scale))` (Lanczos
resampling; `int()` truncates toward zero, i.e. floor for positives); the
grayscale, autocontrast, sharpen and binarize steps (1, 3-5) keep the
dimensions unchanged. -/
def preprocess_image_dims (w h : Nat) : Nat × Nat :=
  if w < 2000 then
    (fracFloor (floatMulNat w (floatDiv 2000 w)),
     fracFloor (floatMulNat h (floatDiv 2000 w)))
  else (w, h)

/-- C9 fails on the code: for a 19-pixel-wide page image, double-precision
arithmetic gives `int(19 * (2000/19)) = 1999`, so the preprocessor outputs
width 1999, not exactly 2000 as the claim (and the code's own
`min_width = 2000` intent) requires; a width of 2000 or more is indeed left
unresized. -/
theorem preprocess_image_width_slip :
    preprocess_image_dims 19 19 = (1999, 1999)
      ∧ preprocess_image_dims 2000 77 = (2000, 77)
      ∧ 19 < 2000 := by
  refine ⟨by decide, by decide, by decide⟩

end COATrans
